import Mathlib

/-!
Verification of the account model of `src/accounts.rs` (TON ledger account
representation): the ledger-account lifecycle state machine, the
deduplicating storage-footprint walk, and the account wire codec.

Modelling conventions, matching the specification's scope:

* The content-addressed node primitive ("cell") is an immutable node holding
  a bit string plus an ordered list of child references.  Per the
  specification, node equality and identity both derive from the content
  hash, and the soundness of every hash comparison rests on
  content-addressing.  We therefore model a 256-bit representation hash by
  the cell's full content itself (`UInt256 := Cell`, `repr_hash := id`):
  hash equality is content equality, which is exactly the property the
  source relies on.
* External collaborators (the variable-length integer codec, the
  multi-currency balance arithmetic, the message and address types, the
  low-level bit-cursor encoder) live outside `src/`; each is modelled from
  the specification's description and marked `Modelled from the spec:`.
* Fallible Rust methods returning `Result<T>` while mutating `self` are
  modelled as pure functions returning `Except String Unit × Account`
  (the verdict together with the post-state; error paths return the
  original state, matching the source's early-return-before-mutation flow).
-/

/-- The content-addressed DAG node: an immutable bit string plus an ordered
list of child references (the external "cell" primitive of the node graph).
In Lean the DAG is a tree value whose shared subtrees are equal subterms;
distinctness by content hash is distinctness as values. -/
inductive Cell where
  | mk (data : List Bool) (refs : List Cell)

mutual

def Cell.beq : Cell → Cell → Bool
  | .mk d1 r1, .mk d2 r2 => d1 == d2 && beqCellList r1 r2

def beqCellList : List Cell → List Cell → Bool
  | [], [] => true
  | c :: cs, d :: ds => Cell.beq c d && beqCellList cs ds
  | _, _ => false

end

mutual

theorem Cell.beq_iff : ∀ a b : Cell, Cell.beq a b = true ↔ a = b
  | .mk d1 r1, .mk d2 r2 => by
    simp only [Cell.beq, Bool.and_eq_true, beq_iff_eq, Cell.mk.injEq]
    exact and_congr Iff.rfl (beqCellList_iff r1 r2)

theorem beqCellList_iff : ∀ cs ds : List Cell, beqCellList cs ds = true ↔ cs = ds
  | [], [] => by simp [beqCellList]
  | c :: cs, d :: ds => by
    simp only [beqCellList, Bool.and_eq_true, List.cons.injEq]
    exact and_congr (Cell.beq_iff c d) (beqCellList_iff cs ds)
  | [], _ :: _ => by simp [beqCellList]
  | _ :: _, [] => by simp [beqCellList]

end

instance : DecidableEq Cell := fun a b => decidable_of_iff _ (Cell.beq_iff a b)

/-- A 256-bit value (hashes, account ids, stored state hashes).  Modelled by
the hashed content itself: under content addressing two hashes are equal
exactly when the hashed contents are equal. -/
abbrev UInt256 := Cell

/-- The representation hash of a cell (content addressing made literal). -/
def Cell.repr_hash (c : Cell) : UInt256 := c

/-- Number of data bits owned by the cell itself, children excluded
(`cell.bit_length()`). -/
def Cell.bit_length : Cell → Nat
  | .mk data _ => data.length

/-- The ordered child references of a cell. -/
def Cell.refs : Cell → List Cell
  | .mk _ refs => refs

mutual

/-- The set of nodes reachable from a cell (the cell itself plus everything
below it), as a deduplicated finite set: the specification's "distinct
(hash-deduplicated) reachable node set". -/
def Cell.reach : Cell → Finset Cell
  | .mk data refs => insert (Cell.mk data refs) (reachCellList refs)

/-- Union of the reachable sets of a list of cells. -/
def reachCellList : List Cell → Finset Cell
  | [] => ∅
  | c :: cs => c.reach ∪ reachCellList cs

end

/-- Modelled from the spec: `VarUInteger 7` holds a 56-bit count; overflow
is checked/saturating against this fixed maximum, never wrapping. -/
def vu7Max : Nat := 2 ^ 56 - 1

/-- Modelled from the spec: `VarUInteger7::add_checked`, a saturating
addition against the fixed maximum `vu7Max`. -/
def add_checked (a b : Nat) : Nat := min (a + b) vu7Max

/-- Accumulator of the deduplicating footprint walk: the running cell and
bit counters plus the set of already-visited representation hashes (the
`FxHashSet<UInt256>` of the source, modelled as a list with
insert-if-absent). -/
structure DedupWalk where
  cells : Nat
  bits : Nat
  visited : List UInt256

mutual

/-- Core of `StorageUsed::calculate_for_cell` and
`StorageUsedShort::calculate_for_cell` (the two private methods have the
identical body): on first visit of a hash add 1 to the cell count and the
node's own bit length to the bit count, then recurse into each child
reference; on repeat visit skip entirely. -/
def calculate_for_cell_core (s : DedupWalk) : Cell → DedupWalk
  | .mk data refs =>
    if (Cell.mk data refs).repr_hash ∈ s.visited then s
    else calculate_for_refs ⟨add_checked s.cells 1,
                             add_checked s.bits (Cell.mk data refs).bit_length,
                             (Cell.mk data refs).repr_hash :: s.visited⟩ refs

/-- The `for i in 0..cell.references_count()` loop of the walk. -/
def calculate_for_refs (s : DedupWalk) : List Cell → DedupWalk
  | [] => s
  | c :: cs => calculate_for_refs (calculate_for_cell_core s c) cs

end

/-! ## Storage footprint structures -/

/-- The reserved extension tag of `StorageUsed`. -/
inductive StorageExtra where
  | none
  | dict (dict_hash : UInt256)
deriving DecidableEq

/-- `StorageUsed`: footprint summary `{cells, bits, extra}`; counts are
`VarUInteger 7` values, modelled as `Nat` bounded by `vu7Max`. -/
structure StorageUsed where
  cells : Nat
  bits : Nat
  extra : StorageExtra
deriving DecidableEq

def StorageUsed.default : StorageUsed := ⟨0, 0, .none⟩

/-- `StorageUsed::calculate_for_cell`. -/
def StorageUsed.calculate_for_cell (self : StorageUsed) (hashes : List UInt256)
    (cell : Cell) : StorageUsed × List UInt256 :=
  let s := calculate_for_cell_core ⟨self.cells, self.bits, hashes⟩ cell
  (⟨s.cells, s.bits, self.extra⟩, s.visited)

/-- `StorageUsed::calculate_for_struct`: the external serializer turns the
value into its root cell; the walk then starts from the default counters
and an empty visited set.  We take the serialized root cell directly. -/
def StorageUsed.calculate_for_struct (root_cell : Cell) : StorageUsed :=
  (StorageUsed.default.calculate_for_cell [] root_cell).fst

/-- `StorageUsedShort`: footprint summary `{cells, bits}`. -/
structure StorageUsedShort where
  cells : Nat
  bits : Nat
deriving DecidableEq

def StorageUsedShort.default : StorageUsedShort := ⟨0, 0⟩

/-- `StorageUsedShort::calculate_for_cell`. -/
def StorageUsedShort.calculate_for_cell (self : StorageUsedShort)
    (hashes : List UInt256) (cell : Cell) : StorageUsedShort × List UInt256 :=
  let s := calculate_for_cell_core ⟨self.cells, self.bits, hashes⟩ cell
  (⟨s.cells, s.bits⟩, s.visited)

/-- `StorageUsedShort::calculate_for_struct` on the serialized root cell. -/
def StorageUsedShort.calculate_for_struct (root_cell : Cell) : StorageUsedShort :=
  (StorageUsedShort.default.calculate_for_cell [] root_cell).fst

/-- `StorageUsedShort::append`: continues the counters of `self` but runs
the walk with a freshly created empty hash set
(`&mut FxHashSet::default()` in the source). -/
def StorageUsedShort.append (self : StorageUsedShort) (root_cell : Cell) :
    StorageUsedShort :=
  (self.calculate_for_cell [] root_cell).fst

/-! ## Properties of the reachable-set / dedup walk -/

theorem Cell.sizeOf_refs_lt (data : List Bool) (refs : List Cell) :
    sizeOf refs < sizeOf (Cell.mk data refs) := by
  simp [Cell.mk.sizeOf_spec]

theorem mem_reachCellList_iff (d : Cell) :
    ∀ cs : List Cell, d ∈ reachCellList cs ↔ ∃ c ∈ cs, d ∈ c.reach := by
  intro cs
  induction cs with
  | nil => simp [reachCellList]
  | cons c cs ih => simp [reachCellList, ih]

theorem Cell.mem_reach_self (c : Cell) : c ∈ c.reach := by
  cases c
  simp [Cell.reach]

theorem Cell.mem_reach_mk (d : Cell) (data : List Bool) (refs : List Cell) :
    d ∈ (Cell.mk data refs).reach ↔ d = Cell.mk data refs ∨ d ∈ reachCellList refs := by
  simp [Cell.reach]

mutual

theorem sizeOf_le_of_mem_reach : ∀ (c d : Cell), d ∈ c.reach → sizeOf d ≤ sizeOf c
  | .mk data refs, d, h => by
    rw [Cell.mem_reach_mk] at h
    cases h with
    | inl h => exact le_of_eq (congrArg sizeOf h)
    | inr h =>
      exact le_of_lt (lt_trans (sizeOf_lt_of_mem_reachCellList refs d h)
        (Cell.sizeOf_refs_lt data refs))

theorem sizeOf_lt_of_mem_reachCellList :
    ∀ (cs : List Cell) (d : Cell), d ∈ reachCellList cs → sizeOf d < sizeOf cs
  | [], d, h => by simp [reachCellList] at h
  | c :: cs, d, h => by
    have hsplit : d ∈ c.reach ∨ d ∈ reachCellList cs := by
      have := h
      simp only [reachCellList, Finset.mem_union] at this
      exact this
    have hsz : sizeOf (c :: cs) = 1 + sizeOf c + sizeOf cs := by simp
    cases hsplit with
    | inl h1 =>
      have := sizeOf_le_of_mem_reach c d h1
      omega
    | inr h2 =>
      have := sizeOf_lt_of_mem_reachCellList cs d h2
      omega

end

mutual

theorem Cell.reach_trans : ∀ (c d e : Cell), d ∈ c.reach → e ∈ d.reach → e ∈ c.reach
  | .mk data refs, d, e, hd, he => by
    rw [Cell.mem_reach_mk] at hd ⊢
    cases hd with
    | inl h => subst h; rw [Cell.mem_reach_mk] at he; exact he
    | inr h => exact Or.inr (reachCellList_trans refs d e h he)

theorem reachCellList_trans :
    ∀ (cs : List Cell) (d e : Cell), d ∈ reachCellList cs → e ∈ d.reach → e ∈ reachCellList cs
  | [], d, e, hd, he => by simp [reachCellList] at hd
  | c :: cs, d, e, hd, he => by
    simp only [reachCellList, Finset.mem_union] at hd ⊢
    cases hd with
    | inl h => exact Or.inl (Cell.reach_trans c d e h he)
    | inr h => exact Or.inr (reachCellList_trans cs d e h he)

end

theorem cell_not_mem_reach_of_refs (data : List Bool) (refs : List Cell) :
    Cell.mk data refs ∉ reachCellList refs := by
  intro h
  have h1 := sizeOf_lt_of_mem_reachCellList refs (Cell.mk data refs) h
  have h2 := Cell.sizeOf_refs_lt data refs
  omega

theorem union_sdiff_decomp (A B V : Finset Cell) :
    (A ∪ B) \ V = (A \ V) ∪ (B \ (V ∪ A)) := by
  ext e
  simp only [Finset.mem_sdiff, Finset.mem_union]
  tauto

theorem disjoint_sdiff_decomp (A B V : Finset Cell) :
    Disjoint (A \ V) (B \ (V ∪ A)) := by
  rw [Finset.disjoint_left]
  intro e he1 he2
  simp only [Finset.mem_sdiff, Finset.mem_union] at he1 he2
  tauto

theorem add_checked_chain (x d : Nat) :
    min (min x vu7Max + d) vu7Max = min (x + d) vu7Max := by
  omega

theorem walk_count_chain (n p1 p2 a t : Nat) (hn : n ≤ vu7Max)
    (h1 : a = p1 + 1) (h2 : t = a + p2) :
    min (min (add_checked n 1 + p1) vu7Max + p2) vu7Max = min (n + t) vu7Max := by
  unfold add_checked
  omega

theorem walk_bits_chain (b l p1 p2 a t : Nat) (hb : b ≤ vu7Max)
    (h1 : a = l + p1) (h2 : t = a + p2) :
    min (min (add_checked b l + p1) vu7Max + p2) vu7Max = min (b + t) vu7Max := by
  unfold add_checked
  omega

/-- Master characterization of the deduplicating walk: starting from
in-range counters `n`, `b` and a visited set `V` that is reach-closed on
the portion it shares with the work list, the walk adds exactly the number
of distinct newly reachable cells (resp. their total own bit length),
saturating at `vu7Max`, and its visited set afterwards is `V` plus
everything reachable from the work list. -/
theorem calculate_for_refs_spec :
    ∀ (N : Nat) (cs : List Cell), sizeOf cs ≤ N → ∀ (n b : Nat) (V : List UInt256),
      n ≤ vu7Max → b ≤ vu7Max →
      (∀ d : Cell, d ∈ V → d ∈ reachCellList cs → ∀ e : Cell, e ∈ d.reach → e ∈ V) →
      (calculate_for_refs ⟨n, b, V⟩ cs).cells
          = min (n + (reachCellList cs \ V.toFinset).card) vu7Max ∧
      (calculate_for_refs ⟨n, b, V⟩ cs).bits
          = min (b + (reachCellList cs \ V.toFinset).sum Cell.bit_length) vu7Max ∧
      (calculate_for_refs ⟨n, b, V⟩ cs).visited.toFinset = V.toFinset ∪ reachCellList cs := by
  intro N
  induction N using Nat.strong_induction_on with
  | _ N IH =>
  intro cs hcs n b V hn hb hok
  cases cs with
  | nil =>
    refine ⟨?_, ?_, ?_⟩ <;> simp [calculate_for_refs, reachCellList] <;> omega
  | cons c cs' =>
    cases c with
    | mk data refs =>
    have hszspec : sizeOf (Cell.mk data refs :: cs') =
        1 + sizeOf (Cell.mk data refs) + sizeOf cs' := by simp
    have hszrefs := Cell.sizeOf_refs_lt data refs
    have hstep0 : calculate_for_refs ⟨n, b, V⟩ (Cell.mk data refs :: cs')
        = calculate_for_refs (calculate_for_cell_core ⟨n, b, V⟩ (Cell.mk data refs)) cs' := by
      rw [calculate_for_refs]
    rw [hstep0]
    by_cases hmem : Cell.mk data refs ∈ V
    · -- the head cell was already visited: the walk skips it entirely
      have hskip : calculate_for_cell_core ⟨n, b, V⟩ (Cell.mk data refs) = ⟨n, b, V⟩ := by
        simp [calculate_for_cell_core, Cell.repr_hash, hmem]
      rw [hskip]
      have hc_reachlist : Cell.mk data refs ∈ reachCellList (Cell.mk data refs :: cs') := by
        simp only [reachCellList, Finset.mem_union]
        exact Or.inl (Cell.mem_reach_self _)
      have hsub : ∀ e : Cell, e ∈ (Cell.mk data refs).reach → e ∈ V :=
        fun e he => hok _ hmem hc_reachlist e he
      have hsubf : (Cell.mk data refs).reach ⊆ V.toFinset := by
        intro e he
        exact List.mem_toFinset.mpr (hsub e he)
      obtain ⟨ih1, ih2, ih3⟩ := IH (sizeOf cs') (by omega) cs' le_rfl n b V hn hb
        (fun d hd hd2 e he => hok d hd
          (by simp only [reachCellList, Finset.mem_union]; exact Or.inr hd2) e he)
      have hsets : reachCellList (Cell.mk data refs :: cs') \ V.toFinset
          = reachCellList cs' \ V.toFinset := by
        have : reachCellList (Cell.mk data refs :: cs')
            = (Cell.mk data refs).reach ∪ reachCellList cs' := by rw [reachCellList]
        rw [this, Finset.union_sdiff_distrib,
          Finset.sdiff_eq_empty_iff_subset.mpr hsubf, Finset.empty_union]
      have hvis : V.toFinset ∪ reachCellList (Cell.mk data refs :: cs')
          = V.toFinset ∪ reachCellList cs' := by
        have hr : reachCellList (Cell.mk data refs :: cs')
            = (Cell.mk data refs).reach ∪ reachCellList cs' := by rw [reachCellList]
        rw [hr, ← Finset.union_assoc, Finset.union_eq_left.mpr hsubf]
      rw [hsets, hvis]
      exact ⟨ih1, ih2, ih3⟩
    · -- first visit of the head cell
      have hstep : calculate_for_cell_core ⟨n, b, V⟩ (Cell.mk data refs)
          = calculate_for_refs ⟨add_checked n 1,
              add_checked b (Cell.mk data refs).bit_length,
              Cell.mk data refs :: V⟩ refs := by
        simp [calculate_for_cell_core, Cell.repr_hash, hmem]
      rw [hstep]
      have hok1 : ∀ d : Cell, d ∈ Cell.mk data refs :: V → d ∈ reachCellList refs →
          ∀ e : Cell, e ∈ d.reach → e ∈ Cell.mk data refs :: V := by
        intro d hd hdr e he
        rcases List.mem_cons.mp hd with hd | hd
        · subst hd
          exact absurd hdr (cell_not_mem_reach_of_refs data refs)
        · have hdr' : d ∈ reachCellList (Cell.mk data refs :: cs') := by
            simp only [reachCellList, Finset.mem_union]
            exact Or.inl (by rw [Cell.mem_reach_mk]; exact Or.inr hdr)
          exact List.mem_cons.mpr (Or.inr (hok d hd hdr' e he))
      obtain ⟨j1, j2, j3⟩ := IH (sizeOf refs) (by omega) refs le_rfl
        (add_checked n 1) (add_checked b (Cell.mk data refs).bit_length)
        (Cell.mk data refs :: V) (Nat.min_le_right _ _) (Nat.min_le_right _ _) hok1
      set s2 := calculate_for_refs ⟨add_checked n 1,
          add_checked b (Cell.mk data refs).bit_length,
          Cell.mk data refs :: V⟩ refs with hs2
      have hs2eta : s2 = ⟨s2.cells, s2.bits, s2.visited⟩ := rfl
      have hok2 : ∀ d : Cell, d ∈ s2.visited → d ∈ reachCellList cs' →
          ∀ e : Cell, e ∈ d.reach → e ∈ s2.visited := by
        intro d hd hdr e he
        have hd' : d ∈ s2.visited.toFinset := List.mem_toFinset.mpr hd
        rw [j3] at hd'
        rw [← List.mem_toFinset, j3]
        simp only [List.toFinset_cons, Finset.mem_union, Finset.mem_insert,
          List.mem_toFinset] at hd' ⊢
        rcases hd' with (hd' | hd') | hd'
        · -- d is the head cell itself
          subst hd'
          rw [Cell.mem_reach_mk] at he
          rcases he with he | he
          · exact Or.inl (Or.inl he)
          · exact Or.inr he
        · -- d was already visited before the head cell
          have hdr' : d ∈ reachCellList (Cell.mk data refs :: cs') := by
            simp only [reachCellList, Finset.mem_union]
            exact Or.inr hdr
          exact Or.inl (Or.inr (hok d hd' hdr' e he))
        · -- d became visited inside the head cell's children
          exact Or.inr (reachCellList_trans refs d e hd' he)
      obtain ⟨k1, k2, k3⟩ := IH (sizeOf cs') (by omega) cs' le_rfl
        s2.cells s2.bits s2.visited
        (by rw [j1]; exact Nat.min_le_right _ _)
        (by rw [j2]; exact Nat.min_le_right _ _) hok2
      rw [← hs2eta] at k1 k2 k3
      -- set bookkeeping
      have hmemf : Cell.mk data refs ∉ V.toFinset := fun h => hmem (List.mem_toFinset.mp h)
      have hA : (Cell.mk data refs).reach
          = insert (Cell.mk data refs) (reachCellList refs) := by rw [Cell.reach]
      have hRtop : reachCellList (Cell.mk data refs :: cs')
          = (Cell.mk data refs).reach ∪ reachCellList cs' := by rw [reachCellList]
      have hVA : V.toFinset ∪ (Cell.mk data refs).reach
          = insert (Cell.mk data refs) V.toFinset ∪ reachCellList refs := by
        rw [hA]
        ext e
        simp only [Finset.mem_union, Finset.mem_insert]
        tauto
      have hAV : (Cell.mk data refs).reach \ V.toFinset
          = insert (Cell.mk data refs)
              (reachCellList refs \ insert (Cell.mk data refs) V.toFinset) := by
        rw [hA]
        ext e
        simp only [Finset.mem_sdiff, Finset.mem_insert]
        constructor
        · rintro ⟨he | he, hnv⟩
          · exact Or.inl he
          · by_cases hec : e = Cell.mk data refs
            · exact Or.inl hec
            · exact Or.inr ⟨he, by tauto⟩
        · rintro (he | ⟨he, hne⟩)
          · exact ⟨Or.inl he, by rw [he] at *; exact hmemf⟩
          · exact ⟨Or.inr he, fun hv => hne (Or.inr hv)⟩
      have hnotmem1 : Cell.mk data refs
          ∉ reachCellList refs \ insert (Cell.mk data refs) V.toFinset := by
        simp [Finset.mem_sdiff]
      have hdecomp : reachCellList (Cell.mk data refs :: cs') \ V.toFinset
          = ((Cell.mk data refs).reach \ V.toFinset)
            ∪ (reachCellList cs' \ (V.toFinset ∪ (Cell.mk data refs).reach)) := by
        rw [hRtop]
        exact union_sdiff_decomp _ _ _
      have hdisj := disjoint_sdiff_decomp (Cell.mk data refs).reach
        (reachCellList cs') V.toFinset
      have hs2v : s2.visited.toFinset
          = insert (Cell.mk data refs) V.toFinset ∪ reachCellList refs := by
        rw [j3]
        simp [List.toFinset_cons]
      have hD2 : reachCellList cs' \ s2.visited.toFinset
          = reachCellList cs' \ (V.toFinset ∪ (Cell.mk data refs).reach) := by
        rw [hs2v, hVA]
      -- the three conclusions
      have hcardA : ((Cell.mk data refs).reach \ V.toFinset).card
          = (reachCellList refs \ insert (Cell.mk data refs) V.toFinset).card + 1 := by
        rw [hAV, Finset.card_insert_of_not_mem hnotmem1]
      have hsumA : ((Cell.mk data refs).reach \ V.toFinset).sum Cell.bit_length
          = (Cell.mk data refs).bit_length
            + (reachCellList refs \ insert (Cell.mk data refs) V.toFinset).sum
                Cell.bit_length := by
        rw [hAV, Finset.sum_insert hnotmem1]
      have hcard : (reachCellList (Cell.mk data refs :: cs') \ V.toFinset).card
          = ((Cell.mk data refs).reach \ V.toFinset).card
            + (reachCellList cs' \ (V.toFinset ∪ (Cell.mk data refs).reach)).card := by
        rw [hdecomp, Finset.card_union_of_disjoint hdisj]
      have hsum : (reachCellList (Cell.mk data refs :: cs') \ V.toFinset).sum Cell.bit_length
          = ((Cell.mk data refs).reach \ V.toFinset).sum Cell.bit_length
            + (reachCellList cs' \ (V.toFinset ∪ (Cell.mk data refs).reach)).sum
                Cell.bit_length := by
        rw [hdecomp, Finset.sum_union hdisj]
      have htf : (Cell.mk data refs :: V).toFinset
          = insert (Cell.mk data refs) V.toFinset := by simp
      refine ⟨?_, ?_, ?_⟩
      · rw [k1, hD2, j1, htf]
        exact walk_count_chain _ _ _ _ _ hn hcardA hcard
      · rw [k2, hD2, j2, htf]
        exact walk_bits_chain _ _ _ _ _ _ hb hsumA hsum
      · rw [k3, hs2v, hRtop, hA]
        ext e
        simp only [Finset.mem_union, Finset.mem_insert]
        tauto

theorem calculate_for_cell_core_as_refs (s : DedupWalk) (c : Cell) :
    calculate_for_cell_core s c = calculate_for_refs s [c] := by
  rw [calculate_for_refs, calculate_for_refs]

/-- The walk over a single root starting from in-range counters and a fresh
empty visited set counts exactly the distinct reachable cells and their
total own bit lengths, saturating at `vu7Max`. -/
theorem walk_single_spec (root : Cell) (n b : Nat) (hn : n ≤ vu7Max) (hb : b ≤ vu7Max) :
    (calculate_for_cell_core ⟨n, b, []⟩ root).cells = min (n + root.reach.card) vu7Max ∧
    (calculate_for_cell_core ⟨n, b, []⟩ root).bits
      = min (b + root.reach.sum Cell.bit_length) vu7Max := by
  obtain ⟨h1, h2, h3⟩ := calculate_for_refs_spec (sizeOf [root]) [root] le_rfl n b [] hn hb
    (by intro d hd; simp at hd)
  have hr : reachCellList [root] = root.reach := by
    rw [reachCellList, reachCellList, Finset.union_empty]
  rw [calculate_for_cell_core_as_refs]
  rw [hr] at h1 h2
  simp only [List.toFinset_nil, Finset.sdiff_empty] at h1 h2
  exact ⟨h1, h2⟩

/-! ## Account data model -/

/-- Modelled from the spec: tick/tock flags of a `StateInit`. -/
structure TickTock where
  tick : Bool
  tock : Bool
deriving DecidableEq

/-- Modelled from the spec: `StateInit` bundles optional split depth,
optional tick/tock flags and optional code/data/library node references
(external `messages.rs` type; only the fields and the `code()` accessor are
used by the account model). -/
structure StateInit where
  split_depth : Option Nat
  special : Option TickTock
  code : Option Cell
  data : Option Cell
  library : Option Cell
deriving DecidableEq

/-- `true :: bits` for a present optional field, `[false]` for an absent
one (the external Maybe-field codec of the spec). -/
def maybeBits (o : Option (List Bool)) : List Bool :=
  match o with
  | Option.none => [false]
  | Option.some bs => true :: bs

/-- Modelled from the spec: the external bit-cursor encoder serializes a
`StateInit` into a root cell — maybe-encoded split depth and tick/tock in
the data bits, the code/data/library references as child references. -/
def StateInit.serialize_root (s : StateInit) : Cell :=
  Cell.mk (maybeBits (s.split_depth.map Nat.bits)
            ++ maybeBits (s.special.map fun t => [t.tick, t.tock])
            ++ [s.code.isSome, s.data.isSome, s.library.isSome])
          (s.code.toList ++ s.data.toList ++ s.library.toList)

/-- `StateInit::hash()`: representation hash of the serialized root. -/
def StateInit.hash (s : StateInit) : UInt256 :=
  s.serialize_root.repr_hash

/-- Modelled from the spec: an internal address, workchain id plus the
fixed-width account id (`get_address()`); the anycast rewrite prefix plays
no role in the account model. -/
structure MsgAddressInt where
  workchain_id : Int
  address : UInt256
deriving DecidableEq

/-- `MsgAddressInt::get_address()`. -/
def MsgAddressInt.get_address (a : MsgAddressInt) : UInt256 := a.address

/-- Modelled from the spec: the multi-currency balance — native grams plus
a sparse extra-currency map, here an association list keyed by currency
id. -/
structure CurrencyCollection where
  grams : Nat
  other : List (Nat × Nat)
deriving DecidableEq

/-- Amount of extra currency `k` in the sparse map (0 when absent). -/
def ecGet (l : List (Nat × Nat)) (k : Nat) : Nat :=
  match l.find? (fun p => p.fst == k) with
  | Option.some p => p.snd
  | Option.none => 0

/-- Modelled from the spec: checked subtraction on the balance type
(`AddSub::sub`): `false` and the balance unchanged when any component is
insufficient; `true` and the componentwise decremented balance when every
component is sufficient. -/
def CurrencyCollection.sub (bal amt : CurrencyCollection) :
    Bool × CurrencyCollection :=
  if amt.grams ≤ bal.grams ∧ ∀ p ∈ amt.other, p.snd ≤ ecGet bal.other p.fst then
    (true, ⟨bal.grams - amt.grams,
            bal.other.map fun p => (p.fst, p.snd - ecGet amt.other p.fst)⟩)
  else
    (false, bal)

/-- `StorageInfo`: rent bookkeeping `{used, last_paid, due_payment}`
(grams modelled as `Nat`). -/
structure StorageInfo where
  used : StorageUsed
  last_paid : Nat
  due_payment : Option Nat
deriving DecidableEq

def StorageInfo.default : StorageInfo := ⟨StorageUsed.default, 0, Option.none⟩

/-- `AccountState`: the lifecycle position of an existing account. -/
inductive AccountState where
  | AccountUninit
  | AccountActive (state_init : StateInit)
  | AccountFrozen (state_init_hash : UInt256)
deriving DecidableEq

/-- `AccountStorage`: `{last_trans_lt, balance, state, init_code_hash}`. -/
structure AccountStorage where
  last_trans_lt : Nat
  balance : CurrencyCollection
  state : AccountState
  init_code_hash : Option UInt256
deriving DecidableEq

def AccountStorage.default : AccountStorage :=
  ⟨0, ⟨0, []⟩, AccountState.AccountUninit, Option.none⟩

/-- `AccountStorage::active_by_init_code_hash`: storage for an active
account, optionally pinning the code hash. -/
def AccountStorage.active_by_init_code_hash (last_trans_lt : Nat)
    (balance : CurrencyCollection) (state_init : StateInit)
    (init_code_hash : Bool) : AccountStorage :=
  { last_trans_lt,
    balance,
    state := AccountState.AccountActive state_init,
    init_code_hash :=
      match init_code_hash with
      | true => state_init.code.map Cell.repr_hash
      | false => Option.none }

/-- `AccountStuff`: the full materialized account. -/
structure AccountStuff where
  addr : MsgAddressInt
  storage_stat : StorageInfo
  storage : AccountStorage
deriving DecidableEq

/-- `Account`: terminal absence marker or a materialized account (the
source's variant `Account::Account(AccountStuff)` is spelled `with_stuff`
here, after the source's constructor function of the same shape, because a
constructor cannot share its name with its own type in Lean). -/
inductive Account where
  | AccountNone
  | with_stuff (stuff : AccountStuff)
deriving DecidableEq

def Account.stuff : Account → Option AccountStuff
  | .with_stuff stuff => Option.some stuff
  | .AccountNone => Option.none

def Account.state : Account → Option AccountState
  | .with_stuff stuff => Option.some stuff.storage.state
  | .AccountNone => Option.none

def Account.balance : Account → Option CurrencyCollection
  | .with_stuff stuff => Option.some stuff.storage.balance
  | .AccountNone => Option.none

/-- Modelled from the spec: the external low-level encoder turns an
`AccountStorage` value into its content-addressed root cell (used only as
the input of the footprint walk). -/
def AccountStorage.serialize_root (s : AccountStorage) : Cell :=
  Cell.mk (Nat.bits s.last_trans_lt ++ Nat.bits s.balance.grams
            ++ [s.init_code_hash.isSome])
          ((match s.state with
            | AccountState.AccountUninit => Cell.mk [false, false] []
            | AccountState.AccountFrozen h => Cell.mk [false, true] [h]
            | AccountState.AccountActive si => Cell.mk [true] [si.serialize_root])
           :: s.init_code_hash.toList)

/-- `AccountStuff::update_storage_stat`: recompute the dedup footprint of
the serialized storage (§4.1 of the spec). -/
def AccountStuff.update_storage_stat (stuff : AccountStuff) : AccountStuff :=
  { stuff with storage_stat :=
      { stuff.storage_stat with
        used := StorageUsed.calculate_for_struct stuff.storage.serialize_root } }

/-- `Account::update_storage_stat` (no-op on an absent account). -/
def Account.update_storage_stat : Account → Account
  | .with_stuff stuff => .with_stuff stuff.update_storage_stat
  | .AccountNone => .AccountNone

/-- `Account::try_activate_by_init_code_hash`: activation gated by the
hash commitment; returns the verdict together with the post-state. -/
def Account.try_activate_by_init_code_hash (acc : Account)
    (state_init : StateInit) (init_code_hash : Bool) :
    Except String Unit × Account :=
  match acc with
  | .with_stuff stuff =>
    match stuff.storage.state with
    | AccountState.AccountUninit =>
      if state_init.hash = stuff.addr.get_address then
        (Except.ok (),
         .with_stuff { stuff with storage :=
           { stuff.storage with
             state := AccountState.AccountActive state_init,
             init_code_hash :=
               match init_code_hash with
               | true => state_init.code.map Cell.repr_hash
               | false => Option.none } })
      else
        (Except.error "StateInit does not correspond to uninit account address",
         .with_stuff stuff)
    | AccountState.AccountFrozen state_init_hash =>
      if state_init_hash = state_init.hash then
        (Except.ok (),
         .with_stuff { stuff with storage :=
           { stuff.storage with
             state := AccountState.AccountActive state_init,
             init_code_hash := Option.none } })
      else
        (Except.error "StateInit does not correspond to frozen hash",
         .with_stuff stuff)
    | AccountState.AccountActive si =>
      (Except.ok (),
       .with_stuff { stuff with storage :=
         { stuff.storage with
           state := AccountState.AccountActive si,
           init_code_hash := Option.none } })
  | .AccountNone =>
    (Except.error "Cannot activate not existing account", .AccountNone)

/-- `Account::try_freeze`: an active account's state is replaced by
`Frozen` carrying the hash of its `state_init`; every other starting
point is left unchanged.  (The `Result` is always `Ok` here: the only
failure source in the source is the external serializer inside
`state_init.hash()`, which the model treats as total.) -/
def Account.try_freeze (acc : Account) : Account :=
  match acc with
  | .with_stuff stuff =>
    match stuff.storage.state with
    | AccountState.AccountActive state_init =>
      .with_stuff { stuff with storage :=
        { stuff.storage with
          state := AccountState.AccountFrozen state_init.hash } }
    | _ => .with_stuff stuff
  | .AccountNone => .AccountNone

/-- `Account::sub_funds`: delegate to the balance's checked subtraction;
no-op returning `false` on an absent account. -/
def Account.sub_funds (acc : Account) (funds_to_sub : CurrencyCollection) :
    Bool × Account :=
  match acc with
  | .with_stuff stuff =>
    let r := stuff.storage.balance.sub funds_to_sub
    (r.fst, .with_stuff { stuff with storage :=
      { stuff.storage with balance := r.snd } })
  | .AccountNone => (false, .AccountNone)

/-- Modelled from the spec: the internal-message header fields used by
account materialization (attached value, bounce flag, destination). -/
structure InternalMsgHeader where
  value : CurrencyCollection
  bounce : Bool
  dst : MsgAddressInt
deriving DecidableEq

/-- Modelled from the spec: an inbound message — an optional internal
header plus an optional embedded `StateInit`. -/
structure Message where
  int_header : Option InternalMsgHeader
  state_init : Option StateInit
deriving DecidableEq

/-- `Account::from_message_by_init_code_hash`: materialize an account from
a value-carrying constructor message, or return `none`. -/
def Account.from_message_by_init_code_hash (msg : Message)
    (init_code_hash : Bool) : Option Account :=
  match msg.int_header with
  | Option.none => Option.none
  | Option.some hdr =>
    if hdr.value.grams = 0 then Option.none
    else
      match msg.state_init with
      | Option.some init =>
        match init.code with
        | Option.none => Option.none
        | Option.some code =>
          Option.some (Account.update_storage_stat (.with_stuff
            { addr := hdr.dst,
              storage_stat := StorageInfo.default,
              storage :=
                { AccountStorage.default with
                  balance := hdr.value,
                  state := AccountState.AccountActive init,
                  init_code_hash :=
                    match init_code_hash with
                    | true => Option.some code.repr_hash
                    | false => Option.none } }))
      | Option.none =>
        if hdr.bounce then Option.none
        else
          Option.some (Account.update_storage_stat (.with_stuff
            { addr := hdr.dst,
              storage_stat := StorageInfo.default,
              storage := { AccountStorage.default with balance := hdr.value } }))

/-! ## Wire codec

The bits that `accounts.rs` itself appends (constructor tags, maybe bits)
are modelled as literal bits of the stream; every field written through an
external codec (the variable-length integer codec, the address codec, the
balance codec, the 256-bit hash writer, the `StateInit` codec) is modelled
from the spec as one atomic self-delimiting stream segment holding the
encoded value.  Decoding a segment of the wrong kind fails, modelling the
malformed-input decode errors of §7. -/

inductive Seg where
  | bit (b : Bool)
  | vuint7 (n : Nat)
  | u32seg (n : Nat)
  | u64seg (n : Nat)
  | gramsSeg (g : Nat)
  | currencies (c : CurrencyCollection)
  | addressSeg (a : MsgAddressInt)
  | hash256 (h : UInt256)
  | stateInitSeg (s : StateInit)
deriving DecidableEq

/-- Modelled bit width of a stream segment (externally encoded fields get
their nominal widths; only positivity matters to the decoder, which uses
it solely for the `remaining_bits() == 0` test). -/
def Seg.bitLen : Seg → Nat
  | .bit _ => 1
  | .vuint7 _ => 3
  | .u32seg _ => 32
  | .u64seg _ => 64
  | .gramsSeg _ => 4
  | .currencies _ => 5
  | .addressSeg _ => 267
  | .hash256 _ => 256
  | .stateInitSeg _ => 5

/-- The remaining bit stream of a decoder (`SliceData`). -/
abbrev SliceData := List Seg

/-- `SliceData::remaining_bits()`. -/
def remaining_bits (s : SliceData) : Nat :=
  (s.map Seg.bitLen).sum

theorem Seg.bitLen_pos (x : Seg) : 0 < x.bitLen := by
  cases x <;> simp [Seg.bitLen]

theorem remaining_bits_cons_ne_zero (x : Seg) (s : SliceData) :
    remaining_bits (x :: s) ≠ 0 := by
  have := Seg.bitLen_pos x
  simp [remaining_bits]
  omega

/-- `SliceData::get_next_bit()`. -/
def get_next_bit : SliceData → Except String (Bool × SliceData)
  | Seg.bit b :: rest => Except.ok (b, rest)
  | _ => Except.error "cell underflow: expected a data bit"

/-- `SliceData::get_next_int(3)`: three MSB-first bits. -/
def get_next_int3 (s : SliceData) : Except String (Nat × SliceData) :=
  match get_next_bit s with
  | Except.error e => Except.error e
  | Except.ok (b1, s) =>
    match get_next_bit s with
    | Except.error e => Except.error e
    | Except.ok (b2, s) =>
      match get_next_bit s with
      | Except.error e => Except.error e
      | Except.ok (b3, s) =>
        Except.ok ((cond b1 4 0) + (cond b2 2 0) + (cond b3 1 0), s)

/-- Read one externally encoded `VarUInteger 7` segment. -/
def read_vuint7 : SliceData → Except String (Nat × SliceData)
  | Seg.vuint7 n :: rest => Except.ok (n, rest)
  | _ => Except.error "cell underflow: expected a VarUInteger 7"

/-- Read one externally encoded `uint32` segment. -/
def read_u32 : SliceData → Except String (Nat × SliceData)
  | Seg.u32seg n :: rest => Except.ok (n, rest)
  | _ => Except.error "cell underflow: expected a uint32"

/-- Read one externally encoded `uint64` segment. -/
def read_u64 : SliceData → Except String (Nat × SliceData)
  | Seg.u64seg n :: rest => Except.ok (n, rest)
  | _ => Except.error "cell underflow: expected a uint64"

/-- Read one externally encoded `Grams` segment. -/
def read_grams : SliceData → Except String (Nat × SliceData)
  | Seg.gramsSeg g :: rest => Except.ok (g, rest)
  | _ => Except.error "cell underflow: expected a Grams value"

/-- Read one externally encoded `CurrencyCollection` segment. -/
def read_currencies : SliceData → Except String (CurrencyCollection × SliceData)
  | Seg.currencies c :: rest => Except.ok (c, rest)
  | _ => Except.error "cell underflow: expected a CurrencyCollection"

/-- Read one externally encoded `MsgAddressInt` segment. -/
def read_address : SliceData → Except String (MsgAddressInt × SliceData)
  | Seg.addressSeg a :: rest => Except.ok (a, rest)
  | _ => Except.error "cell underflow: expected a MsgAddressInt"

/-- Read one 256-bit hash (`get_next_hash` / `UInt256::read_from`). -/
def read_hash256 : SliceData → Except String (UInt256 × SliceData)
  | Seg.hash256 h :: rest => Except.ok (h, rest)
  | _ => Except.error "cell underflow: expected a uint256"

/-- Read one externally encoded `StateInit` segment. -/
def read_stateInit : SliceData → Except String (StateInit × SliceData)
  | Seg.stateInitSeg si :: rest => Except.ok (si, rest)
  | _ => Except.error "cell underflow: expected a StateInit"

/-- `Grams::read_maybe_from`. -/
def read_maybe_grams (s : SliceData) : Except String (Option Nat × SliceData) :=
  match get_next_bit s with
  | Except.error e => Except.error e
  | Except.ok (true, s) =>
    match read_grams s with
    | Except.error e => Except.error e
    | Except.ok (g, s) => Except.ok (Option.some g, s)
  | Except.ok (false, s) => Except.ok (Option.none, s)

/-- `UInt256::read_maybe_from`. -/
def read_maybe_hash256 (s : SliceData) :
    Except String (Option UInt256 × SliceData) :=
  match get_next_bit s with
  | Except.error e => Except.error e
  | Except.ok (true, s) =>
    match read_hash256 s with
    | Except.error e => Except.error e
    | Except.ok (h, s) => Except.ok (Option.some h, s)
  | Except.ok (false, s) => Except.ok (Option.none, s)

/-- `impl Serializable for StorageUsed`: cells, bits, then the 3-bit extra
tag `000` (no extra) or `001` followed by the dictionary hash. -/
def StorageUsed.write_to (u : StorageUsed) : List Seg :=
  [Seg.vuint7 u.cells, Seg.vuint7 u.bits] ++
  (match u.extra with
   | StorageExtra.none => [Seg.bit false, Seg.bit false, Seg.bit false]
   | StorageExtra.dict dict_hash =>
     [Seg.bit false, Seg.bit false, Seg.bit true, Seg.hash256 dict_hash])

/-- `impl Deserializable for StorageUsed`: any extra tag other than `000`
or `001` is a decode error. -/
def StorageUsed.construct_from (s : SliceData) :
    Except String (StorageUsed × SliceData) :=
  match read_vuint7 s with
  | Except.error e => Except.error e
  | Except.ok (cells, s) =>
    match read_vuint7 s with
    | Except.error e => Except.error e
    | Except.ok (bits, s) =>
      match get_next_int3 s with
      | Except.error e => Except.error e
      | Except.ok (tag, s) =>
        if tag = 0 then Except.ok (⟨cells, bits, StorageExtra.none⟩, s)
        else if tag = 1 then
          match read_hash256 s with
          | Except.error e => Except.error e
          | Except.ok (dict_hash, s) =>
            Except.ok (⟨cells, bits, StorageExtra.dict dict_hash⟩, s)
        else Except.error "wrong tag deserializing StorageUsed"

/-- `impl Serializable for StorageInfo`. -/
def StorageInfo.write_to (i : StorageInfo) : List Seg :=
  i.used.write_to ++ [Seg.u32seg i.last_paid] ++
  (match i.due_payment with
   | Option.some g => [Seg.bit true, Seg.gramsSeg g]
   | Option.none => [Seg.bit false])

/-- `impl Deserializable for StorageInfo`. -/
def StorageInfo.construct_from (s : SliceData) :
    Except String (StorageInfo × SliceData) :=
  match StorageUsed.construct_from s with
  | Except.error e => Except.error e
  | Except.ok (used, s) =>
    match read_u32 s with
    | Except.error e => Except.error e
    | Except.ok (last_paid, s) =>
      match read_maybe_grams s with
      | Except.error e => Except.error e
      | Except.ok (due_payment, s) =>
        Except.ok (⟨used, last_paid, due_payment⟩, s)

/-- `impl Serializable for AccountState`: `00` uninit, `01`+hash frozen,
`1`+StateInit active. -/
def AccountState.write_to : AccountState → List Seg
  | AccountState.AccountUninit => [Seg.bit false, Seg.bit false]
  | AccountState.AccountFrozen state_init_hash =>
    [Seg.bit false, Seg.bit true, Seg.hash256 state_init_hash]
  | AccountState.AccountActive state_init =>
    [Seg.bit true, Seg.stateInitSeg state_init]

/-- `impl Deserializable for AccountState`. -/
def AccountState.construct_from (s : SliceData) :
    Except String (AccountState × SliceData) :=
  match get_next_bit s with
  | Except.error e => Except.error e
  | Except.ok (true, s) =>
    match read_stateInit s with
    | Except.error e => Except.error e
    | Except.ok (state_init, s) =>
      Except.ok (AccountState.AccountActive state_init, s)
  | Except.ok (false, s) =>
    match get_next_bit s with
    | Except.error e => Except.error e
    | Except.ok (true, s) =>
      match read_hash256 s with
      | Except.error e => Except.error e
      | Except.ok (state_init_hash, s) =>
        Except.ok (AccountState.AccountFrozen state_init_hash, s)
    | Except.ok (false, s) => Except.ok (AccountState.AccountUninit, s)

/-- `impl Serializable for AccountStorage`: last_trans_lt, balance, state,
and the maybe-encoded `init_code_hash` only when it is present. -/
def AccountStorage.write_to (st : AccountStorage) : List Seg :=
  [Seg.u64seg st.last_trans_lt, Seg.currencies st.balance]
  ++ st.state.write_to
  ++ (match st.init_code_hash with
      | Option.some h => [Seg.bit true, Seg.hash256 h]
      | Option.none => [])

/-- `impl Serializable for AccountStuff`. -/
def AccountStuff.write_to (stuff : AccountStuff) : List Seg :=
  Seg.addressSeg stuff.addr :: (stuff.storage_stat.write_to ++ stuff.storage.write_to)

/-- `Account::write_original_format`: a single `0` bit for an absent
account, otherwise a leading `1` bit followed by the legacy layout with no
`init_code_hash` field. -/
def Account.write_original_format : Account → List Seg
  | .with_stuff stuff =>
    Seg.bit true :: Seg.addressSeg stuff.addr ::
      (stuff.storage_stat.write_to
        ++ [Seg.u64seg stuff.storage.last_trans_lt,
            Seg.currencies stuff.storage.balance]
        ++ stuff.storage.state.write_to)
  | .AccountNone => [Seg.bit false]

/-- `impl Serializable for Account`: `append_bits(1, 4)` (one `0` bit then
the 3-bit tag `001`) followed by the extended layout exactly when
`init_code_hash` is present; the original format otherwise. -/
def Account.write_to (acc : Account) : List Seg :=
  match acc with
  | .with_stuff stuff =>
    if stuff.storage.init_code_hash.isSome then
      Seg.bit false :: Seg.bit false :: Seg.bit false :: Seg.bit true ::
        stuff.write_to
    else acc.write_original_format
  | .AccountNone => Account.write_original_format .AccountNone

/-- `Account::read_original_format`. -/
def Account.read_original_format (s : SliceData) :
    Except String (Account × SliceData) :=
  match read_address s with
  | Except.error e => Except.error e
  | Except.ok (addr, s) =>
    match StorageInfo.construct_from s with
    | Except.error e => Except.error e
    | Except.ok (storage_stat, s) =>
      match read_u64 s with
      | Except.error e => Except.error e
      | Except.ok (last_trans_lt, s) =>
        match read_currencies s with
        | Except.error e => Except.error e
        | Except.ok (balance, s) =>
          match AccountState.construct_from s with
          | Except.error e => Except.error e
          | Except.ok (state, s) =>
            Except.ok (.with_stuff
              { addr, storage_stat,
                storage := { last_trans_lt, balance, state,
                             init_code_hash := Option.none } }, s)

/-- `Account::read_version` (tag `001`): the extended layout with the
trailing maybe-encoded `init_code_hash`. -/
def Account.read_version (s : SliceData) :
    Except String (Account × SliceData) :=
  match read_address s with
  | Except.error e => Except.error e
  | Except.ok (addr, s) =>
    match StorageInfo.construct_from s with
    | Except.error e => Except.error e
    | Except.ok (storage_stat, s) =>
      match read_u64 s with
      | Except.error e => Except.error e
      | Except.ok (last_trans_lt, s) =>
        match read_currencies s with
        | Except.error e => Except.error e
        | Except.ok (balance, s) =>
          match AccountState.construct_from s with
          | Except.error e => Except.error e
          | Except.ok (state, s) =>
            match read_maybe_hash256 s with
            | Except.error e => Except.error e
            | Except.ok (init_code_hash, s) =>
              Except.ok (.with_stuff
                { addr, storage_stat,
                  storage := { last_trans_lt, balance, state,
                               init_code_hash } }, s)

/-- `impl Deserializable for Account`: leading `1` selects the original
layout; a lone `0` bit is an absent account; otherwise a 3-bit tag where
`000` is an absent account, `001` the extended layout, and anything else a
decode error. -/
def Account.construct_from (s : SliceData) :
    Except String (Account × SliceData) :=
  match get_next_bit s with
  | Except.error e => Except.error e
  | Except.ok (true, s) => Account.read_original_format s
  | Except.ok (false, s) =>
    if remaining_bits s = 0 then Except.ok (Account.AccountNone, s)
    else
      match get_next_int3 s with
      | Except.error e => Except.error e
      | Except.ok (tag, s) =>
        if tag = 0 then Except.ok (Account.AccountNone, s)
        else if tag = 1 then Account.read_version s
        else Except.error "wrong tag deserializing account"

/-! ## Codec round-trip lemmas -/

theorem storageUsed_codec_round_trip (u : StorageUsed) (rest : SliceData) :
    StorageUsed.construct_from (u.write_to ++ rest) = Except.ok (u, rest) := by
  obtain ⟨c, b, e⟩ := u
  cases e <;> rfl

theorem storageInfo_codec_round_trip (i : StorageInfo) (rest : SliceData) :
    StorageInfo.construct_from (i.write_to ++ rest) = Except.ok (i, rest) := by
  obtain ⟨u, lp, dp⟩ := i
  cases dp <;>
    simp [StorageInfo.write_to, StorageInfo.construct_from, List.append_assoc,
          storageUsed_codec_round_trip, read_u32, read_maybe_grams, get_next_bit,
          read_grams]

theorem accountState_codec_round_trip (st : AccountState) (rest : SliceData) :
    AccountState.construct_from (st.write_to ++ rest) = Except.ok (st, rest) := by
  cases st <;> rfl

theorem accountState_codec_round_trip_nil (st : AccountState) :
    AccountState.construct_from st.write_to = Except.ok (st, []) := by
  have h := accountState_codec_round_trip st []
  simpa using h

/-- Decoding the exact encoding of any account restores the account and
consumes the whole stream.  (The absent-account encoding, a lone `0` bit,
is delimited by the end of the slice, so the statement is about the exact
stream.) -/
theorem account_codec_round_trip (acc : Account) :
    Account.construct_from acc.write_to = Except.ok (acc, []) := by
  cases acc with
  | AccountNone =>
    rfl
  | with_stuff stuff =>
    obtain ⟨addr, stat, storage⟩ := stuff
    obtain ⟨lt, bal, st, ich⟩ := storage
    cases ich with
    | none =>
      simp [Account.write_to, Account.write_original_format, Account.construct_from,
            get_next_bit, Account.read_original_format, read_address,
            List.append_assoc, storageInfo_codec_round_trip, read_u64, read_currencies,
            accountState_codec_round_trip, accountState_codec_round_trip_nil]
    | some h =>
      simp [Account.write_to, AccountStuff.write_to, AccountStorage.write_to,
            Account.construct_from, get_next_bit, remaining_bits_cons_ne_zero,
            get_next_int3, Account.read_version, read_address,
            List.append_assoc, storageInfo_codec_round_trip, read_u64, read_currencies,
            accountState_codec_round_trip, read_maybe_hash256, read_hash256]

/-! ## Concrete example values -/

def cellLeaf : Cell := Cell.mk [] []

def cellRootA : Cell := Cell.mk [false] [cellLeaf]

def cellRootB : Cell := Cell.mk [true] [cellLeaf]

def cellDiamond : Cell := Cell.mk [true, true] [cellRootA, cellRootB]

def siEmpty : StateInit :=
  ⟨Option.none, Option.none, Option.none, Option.none, Option.none⟩

def siWithCode : StateInit := { siEmpty with code := Option.some cellLeaf }

def stuffUninit : AccountStuff :=
  { addr := ⟨0, siEmpty.hash⟩,
    storage_stat := StorageInfo.default,
    storage := { AccountStorage.default with balance := ⟨100, []⟩ } }

def stuffUninitC : AccountStuff :=
  { addr := ⟨0, siWithCode.hash⟩,
    storage_stat := StorageInfo.default,
    storage := AccountStorage.default }

def stuffActive : AccountStuff :=
  { addr := ⟨0, cellLeaf⟩,
    storage_stat := StorageInfo.default,
    storage := { AccountStorage.default with
                 state := AccountState.AccountActive siEmpty,
                 init_code_hash := Option.some cellLeaf } }

def stuffFrozenWithCode : AccountStuff :=
  { addr := ⟨0, cellLeaf⟩,
    storage_stat := StorageInfo.default,
    storage := { AccountStorage.default with
                 state := AccountState.AccountFrozen siWithCode.hash } }

def stuffBal100 : AccountStuff :=
  { addr := ⟨0, cellLeaf⟩,
    storage_stat := StorageInfo.default,
    storage := { AccountStorage.default with balance := ⟨100, []⟩ } }

/-- `Account::init_code_hash` accessor. -/
def Account.init_code_hash : Account → Option UInt256
  | .with_stuff stuff => stuff.storage.init_code_hash
  | .AccountNone => Option.none

/-- `Account::get_addr` accessor (as total on existing accounts). -/
def Account.get_addr : Account → Option MsgAddressInt
  | .with_stuff stuff => Option.some stuff.addr
  | .AccountNone => Option.none

/-! ## Claims -/

/-- Claim C1: for an account in the Uninit state,
`try_activate_by_init_code_hash(state_init, derive)` succeeds iff
`hash(state_init)` equals the account's address, and for a Frozen account
iff it equals the stored `state_init_hash`; on a mismatch from either
state it returns an error and leaves the account — all fields — unchanged. -/
theorem claim_C1_activation_hash_gate (stuff : AccountStuff) (si : StateInit)
    (derive : Bool) :
    (stuff.storage.state = AccountState.AccountUninit →
      (((Account.with_stuff stuff).try_activate_by_init_code_hash si derive).fst
          = Except.ok () ↔ si.hash = stuff.addr.get_address)
      ∧ (si.hash ≠ stuff.addr.get_address →
          (Account.with_stuff stuff).try_activate_by_init_code_hash si derive
            = (Except.error "StateInit does not correspond to uninit account address",
               Account.with_stuff stuff)))
    ∧ (∀ fh : UInt256, stuff.storage.state = AccountState.AccountFrozen fh →
      (((Account.with_stuff stuff).try_activate_by_init_code_hash si derive).fst
          = Except.ok () ↔ si.hash = fh)
      ∧ (si.hash ≠ fh →
          (Account.with_stuff stuff).try_activate_by_init_code_hash si derive
            = (Except.error "StateInit does not correspond to frozen hash",
               Account.with_stuff stuff))) := by
  constructor
  · intro hstate
    by_cases hh : si.hash = stuff.addr.address
    · simp [Account.try_activate_by_init_code_hash, hstate, hh,
            MsgAddressInt.get_address]
    · constructor
      · simp [Account.try_activate_by_init_code_hash, hstate, hh,
              MsgAddressInt.get_address]
      · intro _
        simp [Account.try_activate_by_init_code_hash, hstate, hh,
              MsgAddressInt.get_address]
  · intro fh hstate
    by_cases hh : si.hash = fh
    · simp [Account.try_activate_by_init_code_hash, hstate, hh.symm]
    · have hh2 : ¬ fh = si.hash := fun h => hh h.symm
      constructor
      · simp [Account.try_activate_by_init_code_hash, hstate, hh2, hh]
      · intro _
        simp [Account.try_activate_by_init_code_hash, hstate, hh2]

theorem claim_C1_activation_hash_gate_witness :
    ((Account.with_stuff stuffUninit).try_activate_by_init_code_hash siEmpty
        true).fst = Except.ok ()
    ∧ (Account.with_stuff stuffUninit).try_activate_by_init_code_hash siWithCode
        true
        = (Except.error "StateInit does not correspond to uninit account address",
           Account.with_stuff stuffUninit) :=
  ⟨((claim_C1_activation_hash_gate stuffUninit siEmpty true).1 rfl).1.mpr rfl,
   ((claim_C1_activation_hash_gate stuffUninit siWithCode true).1 rfl).2
     (by decide)⟩

/-- Claim C3 counterexample: on an absent (`None`) account,
`try_activate_by_init_code_hash` returns an error, not the success the
claim asserts for "every account whose starting state is neither Uninit
nor Frozen (including an absent/None account)". -/
theorem claim_C3_counterexample :
    (Account.AccountNone.try_activate_by_init_code_hash siEmpty false).fst
      = Except.error "Cannot activate not existing account" := rfl

/-- Claim C3 (amended): for every existing account whose state is neither
Uninit nor Frozen (i.e. Active), activation returns success and leaves the
`AccountState` unchanged (while resetting the stored `init_code_hash` to
absent); on an absent (`None`) account it returns an error instead. -/
theorem claim_C3_amended (stuff : AccountStuff) (si0 si : StateInit)
    (derive : Bool) (h : stuff.storage.state = AccountState.AccountActive si0) :
    (Account.with_stuff stuff).try_activate_by_init_code_hash si derive
      = (Except.ok (), Account.with_stuff { stuff with storage :=
          { stuff.storage with init_code_hash := Option.none } }) := by
  obtain ⟨addr, stat, storage⟩ := stuff
  obtain ⟨lt, bal, st, ich⟩ := storage
  simp only at h
  subst h
  rfl

theorem claim_C3_amended_witness :
    (Account.with_stuff stuffActive).try_activate_by_init_code_hash siWithCode
        true
      = (Except.ok (), Account.with_stuff { stuffActive with storage :=
          { stuffActive.storage with init_code_hash := Option.none } }) :=
  claim_C3_amended stuffActive siEmpty siWithCode true rfl

/-- Claim C6 counterexample: activating a Frozen account (hash match) with
`derive = true` and a `state_init` that has a code reference succeeds but
leaves `init_code_hash` absent — not the code hash required by the claim. -/
theorem claim_C6_counterexample :
    ((Account.with_stuff stuffFrozenWithCode).try_activate_by_init_code_hash
        siWithCode true).fst = Except.ok ()
    ∧ ((Account.with_stuff stuffFrozenWithCode).try_activate_by_init_code_hash
        siWithCode true).snd.init_code_hash = Option.none
    ∧ siWithCode.code.map Cell.repr_hash ≠ Option.none := by
  refine ⟨rfl, rfl, by decide⟩

/-- Claim C6 (amended): a successful activation from Uninit sets the state
to Active holding `state_init` and, when `derive` is true, pins
`init_code_hash` to the content hash of the code reference (absent when
there is no code; absent when `derive` is false); a successful activation
from Frozen sets the state to Active holding `state_init` but always
resets `init_code_hash` to absent, regardless of `derive`. -/
theorem claim_C6_amended (stuff : AccountStuff) (si : StateInit) (derive : Bool) :
    (stuff.storage.state = AccountState.AccountUninit →
      si.hash = stuff.addr.get_address →
      (Account.with_stuff stuff).try_activate_by_init_code_hash si derive
        = (Except.ok (), Account.with_stuff { stuff with storage :=
            { stuff.storage with
              state := AccountState.AccountActive si,
              init_code_hash :=
                match derive with
                | true => si.code.map Cell.repr_hash
                | false => Option.none } }))
    ∧ (∀ fh : UInt256, stuff.storage.state = AccountState.AccountFrozen fh →
      fh = si.hash →
      (Account.with_stuff stuff).try_activate_by_init_code_hash si derive
        = (Except.ok (), Account.with_stuff { stuff with storage :=
            { stuff.storage with
              state := AccountState.AccountActive si,
              init_code_hash := Option.none } })) := by
  constructor
  · intro hstate hh
    simp [Account.try_activate_by_init_code_hash, hstate, hh,
          MsgAddressInt.get_address]
  · intro fh hstate hh
    simp [Account.try_activate_by_init_code_hash, hstate, hh]

theorem claim_C6_amended_witness :
    (Account.with_stuff stuffUninitC).try_activate_by_init_code_hash siWithCode
        true
      = (Except.ok (), Account.with_stuff { stuffUninitC with storage :=
          { stuffUninitC.storage with
            state := AccountState.AccountActive siWithCode,
            init_code_hash := siWithCode.code.map Cell.repr_hash } }) :=
  (claim_C6_amended stuffUninitC siWithCode true).1 rfl rfl

/-- Claim C7: `try_freeze` replaces an Active state by Frozen carrying
exactly the hash of the previous `state_init`, and on every other account
(absent, Uninit, Frozen) it succeeds leaving the account entirely
unchanged.  (Success is modelled by totality: the only failure source in
the Rust signature is the external serializer inside `state_init.hash()`.) -/
theorem claim_C7_freeze (stuff : AccountStuff) :
    (∀ si : StateInit, stuff.storage.state = AccountState.AccountActive si →
      (Account.with_stuff stuff).try_freeze
        = Account.with_stuff { stuff with storage :=
            { stuff.storage with
              state := AccountState.AccountFrozen si.hash } })
    ∧ (stuff.storage.state = AccountState.AccountUninit →
      (Account.with_stuff stuff).try_freeze = Account.with_stuff stuff)
    ∧ (∀ fh : UInt256, stuff.storage.state = AccountState.AccountFrozen fh →
      (Account.with_stuff stuff).try_freeze = Account.with_stuff stuff)
    ∧ Account.AccountNone.try_freeze = Account.AccountNone := by
  refine ⟨?_, ?_, ?_, rfl⟩
  · intro si hstate
    simp [Account.try_freeze, hstate]
  · intro hstate
    simp [Account.try_freeze, hstate]
  · intro fh hstate
    simp [Account.try_freeze, hstate]

theorem claim_C7_freeze_witness :
    (Account.with_stuff stuffActive).try_freeze
      = Account.with_stuff { stuffActive with storage :=
          { stuffActive.storage with
            state := AccountState.AccountFrozen siEmpty.hash } }
    ∧ (Account.with_stuff stuffUninit).try_freeze
        = Account.with_stuff stuffUninit :=
  ⟨(claim_C7_freeze stuffActive).1 siEmpty rfl,
   (claim_C7_freeze stuffUninit).2.1 rfl⟩

/-- Claim C9: on an existing account, `sub_funds` returns `false` and
leaves the balance unchanged when the balance cannot cover the requested
amount, and returns `true` with the balance decremented when it can; on an
absent (`None`) account it is a no-op returning `false`.  (The balance
arithmetic itself is the external `AddSub` impl, modelled from the spec.) -/
theorem claim_C9_sub_funds (stuff : AccountStuff) (amt : CurrencyCollection) :
    (¬ (amt.grams ≤ stuff.storage.balance.grams
        ∧ ∀ p ∈ amt.other, p.snd ≤ ecGet stuff.storage.balance.other p.fst) →
      (Account.with_stuff stuff).sub_funds amt = (false, Account.with_stuff stuff))
    ∧ ((amt.grams ≤ stuff.storage.balance.grams
        ∧ ∀ p ∈ amt.other, p.snd ≤ ecGet stuff.storage.balance.other p.fst) →
      (Account.with_stuff stuff).sub_funds amt
        = (true, Account.with_stuff { stuff with storage :=
            { stuff.storage with balance :=
              ⟨stuff.storage.balance.grams - amt.grams,
               stuff.storage.balance.other.map
                 fun p => (p.fst, p.snd - ecGet amt.other p.fst)⟩ } }))
    ∧ Account.AccountNone.sub_funds amt = (false, Account.AccountNone) := by
  refine ⟨?_, ?_, rfl⟩
  · intro hins
    simp only [Account.sub_funds, CurrencyCollection.sub]
    rw [if_neg hins]
  · intro hsuf
    simp only [Account.sub_funds, CurrencyCollection.sub]
    rw [if_pos hsuf]

theorem claim_C9_sub_funds_witness :
    (Account.with_stuff stuffBal100).sub_funds ⟨150, []⟩
      = (false, Account.with_stuff stuffBal100)
    ∧ (Account.with_stuff stuffBal100).sub_funds ⟨60, []⟩
      = (true, Account.with_stuff { stuffBal100 with storage :=
          { stuffBal100.storage with balance := ⟨40, []⟩ } }) := by
  constructor
  · exact (claim_C9_sub_funds stuffBal100 ⟨150, []⟩).1 (by decide)
  · have h := (claim_C9_sub_funds stuffBal100 ⟨60, []⟩).2.1 (by decide)
    simpa using h

/-- Claim C10: `from_message_by_init_code_hash` materializes no account
exactly when the message lacks an internal header, carries zero native
value, embeds a `state_init` without code, or carries no `state_init` with
the bounce flag set; otherwise the account is addressed at the message's
destination, its balance is the attached value, and it is Active holding
the supplied `state_init` when one with code was provided, Uninit
otherwise. -/
theorem claim_C10_from_message (msg : Message) (derive : Bool) :
    (Account.from_message_by_init_code_hash msg derive = Option.none ↔
      (msg.int_header = Option.none
       ∨ (∃ hdr, msg.int_header = Option.some hdr ∧ hdr.value.grams = 0)
       ∨ (∃ init, msg.state_init = Option.some init ∧ init.code = Option.none)
       ∨ (msg.state_init = Option.none
          ∧ ∃ hdr, msg.int_header = Option.some hdr ∧ hdr.bounce = true)))
    ∧ (∀ hdr init, msg.int_header = Option.some hdr → hdr.value.grams ≠ 0 →
        msg.state_init = Option.some init → init.code ≠ Option.none →
        ∃ stuff, Account.from_message_by_init_code_hash msg derive
            = Option.some (Account.with_stuff stuff)
          ∧ stuff.addr = hdr.dst
          ∧ stuff.storage.balance = hdr.value
          ∧ stuff.storage.state = AccountState.AccountActive init)
    ∧ (∀ hdr, msg.int_header = Option.some hdr → hdr.value.grams ≠ 0 →
        msg.state_init = Option.none → hdr.bounce = false →
        ∃ stuff, Account.from_message_by_init_code_hash msg derive
            = Option.some (Account.with_stuff stuff)
          ∧ stuff.addr = hdr.dst
          ∧ stuff.storage.balance = hdr.value
          ∧ stuff.storage.state = AccountState.AccountUninit) := by
  obtain ⟨ih, si⟩ := msg
  refine ⟨?_, ?_, ?_⟩
  · cases ih with
    | none => simp [Account.from_message_by_init_code_hash]
    | some hdr =>
      by_cases hz : hdr.value.grams = 0
      · simp [Account.from_message_by_init_code_hash, hz]
      · cases si with
        | none =>
          cases hbounce : hdr.bounce <;>
            simp [Account.from_message_by_init_code_hash, hz, hbounce,
                  Account.update_storage_stat]
        | some init =>
          cases hcode : init.code with
          | none => simp [Account.from_message_by_init_code_hash, hz, hcode]
          | some code =>
            simp [Account.from_message_by_init_code_hash, hz, hcode,
                  Account.update_storage_stat]
  · intro hdr init hih hz hsi hcode
    simp only at hih hsi
    subst hih
    subst hsi
    cases hc : init.code with
    | none => exact absurd hc hcode
    | some code =>
      refine ⟨AccountStuff.update_storage_stat
        { addr := hdr.dst, storage_stat := StorageInfo.default,
          storage := { AccountStorage.default with
                       balance := hdr.value,
                       state := AccountState.AccountActive init,
                       init_code_hash :=
                         match derive with
                         | true => Option.some code.repr_hash
                         | false => Option.none } }, ?_, rfl, rfl, rfl⟩
      simp [Account.from_message_by_init_code_hash, hz, hc,
            Account.update_storage_stat]
  · intro hdr hih hz hsi hbounce
    simp only at hih hsi
    subst hih
    subst hsi
    refine ⟨AccountStuff.update_storage_stat
      { addr := hdr.dst, storage_stat := StorageInfo.default,
        storage := { AccountStorage.default with balance := hdr.value } },
      ?_, rfl, rfl, rfl⟩
    simp [Account.from_message_by_init_code_hash, hz, hbounce,
          Account.update_storage_stat]

theorem claim_C10_from_message_witness :
    (∃ stuff, Account.from_message_by_init_code_hash
        ⟨Option.some ⟨⟨5, []⟩, false, ⟨0, cellLeaf⟩⟩, Option.some siWithCode⟩ true
        = Option.some (Account.with_stuff stuff)
      ∧ stuff.addr = (⟨0, cellLeaf⟩ : MsgAddressInt)
      ∧ stuff.storage.balance = ⟨5, []⟩
      ∧ stuff.storage.state = AccountState.AccountActive siWithCode)
    ∧ Account.from_message_by_init_code_hash
        ⟨Option.some ⟨⟨0, []⟩, false, ⟨0, cellLeaf⟩⟩, Option.some siWithCode⟩ true
        = Option.none :=
  ⟨(claim_C10_from_message
      ⟨Option.some ⟨⟨5, []⟩, false, ⟨0, cellLeaf⟩⟩, Option.some siWithCode⟩
      true).2.1 ⟨⟨5, []⟩, false, ⟨0, cellLeaf⟩⟩ siWithCode rfl (by decide) rfl
      (by decide),
   (claim_C10_from_message
      ⟨Option.some ⟨⟨0, []⟩, false, ⟨0, cellLeaf⟩⟩, Option.some siWithCode⟩
      true).1.mpr (Or.inr (Or.inl ⟨⟨⟨0, []⟩, false, ⟨0, cellLeaf⟩⟩, rfl, rfl⟩))⟩

/-- Claim C5: for a root cell whose distinct-node count and total own bit
length fit the `VarUInteger 7` counters, `StorageUsed::calculate_for_struct`
computes `cells` as the number of distinct reachable nodes and `bits` as
the sum of the own bit lengths of exactly those distinct nodes — a node
reachable along several paths (diamond sharing) contributes once to each
count. -/
theorem claim_C5_calculate_for_struct (root : Cell)
    (h1 : root.reach.card ≤ vu7Max)
    (h2 : root.reach.sum Cell.bit_length ≤ vu7Max) :
    (StorageUsed.calculate_for_struct root).cells = root.reach.card
    ∧ (StorageUsed.calculate_for_struct root).bits
        = root.reach.sum Cell.bit_length := by
  obtain ⟨w1, w2⟩ := walk_single_spec root 0 0 (Nat.zero_le _) (Nat.zero_le _)
  unfold StorageUsed.calculate_for_struct StorageUsed.calculate_for_cell
    StorageUsed.default
  constructor
  · simp only
    rw [w1]
    omega
  · simp only
    rw [w2]
    omega

theorem claim_C5_calculate_for_struct_witness :
    cellDiamond.reach.card = 4
    ∧ cellDiamond.reach.sum Cell.bit_length = 4
    ∧ (StorageUsed.calculate_for_struct cellDiamond).cells = 4
    ∧ (StorageUsed.calculate_for_struct cellDiamond).bits = 4 := by
  refine ⟨by decide, by decide, ?_, ?_⟩
  · rw [(claim_C5_calculate_for_struct cellDiamond (by decide) (by decide)).1]
    decide
  · rw [(claim_C5_calculate_for_struct cellDiamond (by decide) (by decide)).2]
    decide

/-- Claim C2 counterexample: the two roots share the leaf cell, yet
appending both into one `StorageUsedShort` accumulator yields exactly the
sum of the two independently computed footprints (4 = 2 + 2 cells): the
dedup set does not persist across `append` calls, so the shared node is
counted once per call, and the accumulated total is not strictly smaller
than the sum. -/
theorem claim_C2_counterexample :
    cellLeaf ∈ cellRootA.reach
    ∧ cellLeaf ∈ cellRootB.reach
    ∧ ((StorageUsedShort.default.append cellRootA).append cellRootB).cells
        = (StorageUsedShort.calculate_for_struct cellRootA).cells
          + (StorageUsedShort.calculate_for_struct cellRootB).cells
    ∧ ((StorageUsedShort.default.append cellRootA).append cellRootB).cells = 4 := by
  refine ⟨by decide, by decide, by decide, by decide⟩

/-- Claim C2 (amended): each `append` call runs the walk with a freshly
created empty dedup set, so it adds to the accumulator exactly the
standalone deduplicated footprint of the appended root (nodes shared
*within* one root count once, nodes shared *between* two appended roots
count once per root); accumulating over several roots therefore equals the
sum of the independent footprints. -/
theorem claim_C2_append (s : StorageUsedShort) (root : Cell)
    (hc : s.cells + root.reach.card ≤ vu7Max)
    (hb : s.bits + root.reach.sum Cell.bit_length ≤ vu7Max) :
    s.append root
      = ⟨s.cells + root.reach.card, s.bits + root.reach.sum Cell.bit_length⟩ := by
  obtain ⟨w1, w2⟩ := walk_single_spec root s.cells s.bits (by omega) (by omega)
  unfold StorageUsedShort.append StorageUsedShort.calculate_for_cell
  simp only
  rw [w1, w2]
  congr 1 <;> omega

theorem claim_C2_append_witness :
    (StorageUsedShort.mk 2 1).append cellRootB = StorageUsedShort.mk 4 2 := by
  have h := claim_C2_append (StorageUsedShort.mk 2 1) cellRootB (by decide) (by decide)
  rw [h]
  decide

/-- Claim C4: decoding the encoding of any `Account` restores it exactly,
and the encoder emits the extended layout (leading `0` bit, 3-bit tag
`001`, trailing maybe-encoded `init_code_hash`) exactly when
`init_code_hash` is present; otherwise it emits the original layout — a
leading `1` bit for an existing account, a single `0` bit for `None`. -/
theorem claim_C4_round_trip (acc : Account) :
    Account.construct_from acc.write_to = Except.ok (acc, [])
    ∧ (∀ stuff, acc = Account.with_stuff stuff →
        stuff.storage.init_code_hash.isSome = true →
        acc.write_to = Seg.bit false :: Seg.bit false :: Seg.bit false ::
          Seg.bit true :: stuff.write_to)
    ∧ (∀ stuff, acc = Account.with_stuff stuff →
        stuff.storage.init_code_hash = Option.none →
        acc.write_to = Account.write_original_format acc
        ∧ ∃ t, acc.write_to = Seg.bit true :: t)
    ∧ (acc = Account.AccountNone → acc.write_to = [Seg.bit false]) := by
  refine ⟨account_codec_round_trip acc, ?_, ?_, ?_⟩
  · intro stuff hacc hich
    subst hacc
    simp [Account.write_to, hich]
  · intro stuff hacc hich
    subst hacc
    simp [Account.write_to, hich, Account.write_original_format]
  · intro hacc
    subst hacc
    rfl

theorem claim_C4_round_trip_witness :
    Account.construct_from (Account.with_stuff stuffActive).write_to
      = Except.ok (Account.with_stuff stuffActive, [])
    ∧ (Account.with_stuff stuffActive).write_to
      = Seg.bit false :: Seg.bit false :: Seg.bit false :: Seg.bit true ::
          stuffActive.write_to
    ∧ Account.construct_from (Account.with_stuff stuffUninit).write_to
      = Except.ok (Account.with_stuff stuffUninit, [])
    ∧ Account.construct_from Account.AccountNone.write_to
      = Except.ok (Account.AccountNone, []) :=
  ⟨(claim_C4_round_trip (Account.with_stuff stuffActive)).1,
   (claim_C4_round_trip (Account.with_stuff stuffActive)).2.1 stuffActive rfl rfl,
   (claim_C4_round_trip (Account.with_stuff stuffUninit)).1,
   (claim_C4_round_trip Account.AccountNone).1⟩

/-- Claim C8: unknown discriminators are rejected, never defaulted: an
account stream whose leading bit is `0` followed by a 3-bit tag other
than `000` or `001` (that is, with one of the first two tag bits set)
decode-fails, and a `StorageUsed` stream whose 3-bit extra tag is neither
`000` nor `001` decode-fails, whatever bits follow. -/
theorem claim_C8_unknown_tag (b1 b2 b3 : Bool) (rest : SliceData)
    (h : b1 = true ∨ b2 = true) :
    Account.construct_from
        (Seg.bit false :: Seg.bit b1 :: Seg.bit b2 :: Seg.bit b3 :: rest)
      = Except.error "wrong tag deserializing account"
    ∧ ∀ c b : Nat, StorageUsed.construct_from
        (Seg.vuint7 c :: Seg.vuint7 b ::
          Seg.bit b1 :: Seg.bit b2 :: Seg.bit b3 :: rest)
      = Except.error "wrong tag deserializing StorageUsed" := by
  constructor
  · cases b1 <;> cases b2 <;> cases b3 <;>
      simp [Account.construct_from, get_next_bit, remaining_bits_cons_ne_zero,
            get_next_int3] at h ⊢
  · intro c b
    cases b1 <;> cases b2 <;> cases b3 <;>
      simp [StorageUsed.construct_from, read_vuint7, get_next_bit,
            get_next_int3] at h ⊢

theorem claim_C8_unknown_tag_witness :
    Account.construct_from
        [Seg.bit false, Seg.bit false, Seg.bit true, Seg.bit false]
      = Except.error "wrong tag deserializing account"
    ∧ StorageUsed.construct_from
        [Seg.vuint7 0, Seg.vuint7 0, Seg.bit true, Seg.bit true, Seg.bit true]
      = Except.error "wrong tag deserializing StorageUsed" :=
  ⟨(claim_C8_unknown_tag false true false [] (Or.inr rfl)).1,
   (claim_C8_unknown_tag true true true [] (Or.inl rfl)).2 0 0⟩
